import Mathlib

/-!
# Verification of the order-export reconciliation core

Shallow embedding of the reconciliation/allocation core of the
`amazonexport` repository:

* `GenerateCSVToshlStrategy` (src/GenerateCSVToshlStrategy.ts): money
  parsing (`parseInt`), locale date normalization (`formatDate`),
  delivery-status classification (`parseDeliveryStatus`) and the per-order
  price-allocation loop inside `process`.
* `ScrapePricesStrategy` (src/ScrapePricesStrategy.ts): the fragment
  matcher, the title-keyed deduplication map inside
  `processShipmentElements`, its empty-result fallback, and the
  per-order frame behaviour of `process`.

JavaScript strings are modelled as `String`/`List Char`, JavaScript
numbers as `ℚ` (exact decimal arithmetic), `null`/`undefined` as
`Option`.  The DOM/CSS-selector extraction layer (JSDOM) is outside the
embedding: a shipment fragment enters the model as the record of its four
extracted fields, and a fragment whose extraction threw is `none`.
-/

namespace AmazonExport

/-! ## JavaScript string primitives -/

/-- Whitespace as recognised by JavaScript `trim` / the regex class `\s`
(restricted to the ASCII range). -/
def isWsChar (c : Char) : Bool :=
  c = ' ' || c = '\t' || c = '\n' || c = '\r' || c = '\x0b' || c = '\x0c'

/-- `String.prototype.trim`. -/
def jsTrimL (s : List Char) : List Char :=
  ((s.dropWhile isWsChar).reverse.dropWhile isWsChar).reverse

/-- `String.prototype.trim` on `String`. -/
def jsTrim (s : String) : String := String.mk (jsTrimL s.data)

/-- `String.prototype.toLowerCase` (ASCII). -/
def toLowerL (s : List Char) : List Char := s.map Char.toLower

/-- The regex word-character class `\w` = `[A-Za-z0-9_]`. -/
def isWordChar (c : Char) : Bool := c.isAlpha || c.isDigit || c = '_'

/-- `String.prototype.padStart(2, '0')`. -/
def padStart2L (s : List Char) : List Char :=
  if 2 ≤ s.length then s else List.replicate (2 - s.length) '0' ++ s

/-- `String.prototype.split(sep)` for a one-character separator. -/
def splitOnCharL (sep : Char) : List Char → List (List Char)
  | [] => [[]]
  | c :: rest =>
    if c = sep then [] :: splitOnCharL sep rest
    else
      match splitOnCharL sep rest with
      | [] => [[c]]
      | g :: gs => (c :: g) :: gs

/-- `pat` is a prefix of `s` (character lists). -/
def isPrefixL : List Char → List Char → Bool
  | [], _ => true
  | _ :: _, [] => false
  | p :: ps, c :: cs => p = c && isPrefixL ps cs

/-- `String.prototype.includes`: `pat` occurs as a contiguous substring. -/
def containsL (s pat : List Char) : Bool :=
  match s with
  | [] => decide (pat = [])
  | _ :: rest => isPrefixL pat s || containsL rest pat

/-- Truthiness of a JavaScript `string | null | undefined` value:
`null`, `undefined` and `""` are falsy. -/
def truthyOptStr : Option String → Bool
  | none => false
  | some s => s ≠ ""

/-! ## Money parsing: `GenerateCSVToshlStrategy.parseInt` -/

/-- Characters kept by `moneyStr.replace(/[^\d,.-]/g, '')`. -/
def moneyCharOk (c : Char) : Bool := c.isDigit || c = ',' || c = '.' || c = '-'

/-- `String.prototype.replace(',', '.')`: only the first comma is replaced. -/
def replaceFirstComma : List Char → List Char
  | [] => []
  | c :: rest => if c = ',' then '.' :: rest else c :: replaceFirstComma rest

/-- Numeric value of a digit run (most significant first). -/
def digitsToNat (ds : List Char) : Nat :=
  ds.foldl (fun n c => 10 * n + (c.toNat - '0'.toNat)) 0

/-- Syntactic phase of JavaScript `parseFloat`, restricted to the
character set that survives the money filter (digits, `,`, `.`, `-`): an
optional leading minus, then an integer digit run, then an optional `.`
plus fractional digit run; parsing stops at the first unusable character;
no digits at all is `NaN` (`none`).  Returns sign, integer digits and
fractional digits. -/
def parseFloatParts (s : List Char) : Option (Bool × List Char × List Char) :=
  let neg := s.head? = some '-'
  let r := if neg then s.tail else s
  let ip := r.takeWhile Char.isDigit
  let r2 := r.drop ip.length
  let fp := if r2.head? = some '.' then r2.tail.takeWhile Char.isDigit else []
  if ip = [] ∧ fp = [] then none else some (neg, ip, fp)

/-- Numeric value of a parsed float. -/
def ratOfParts (p : Bool × List Char × List Char) : ℚ :=
  let mag : ℚ := (digitsToNat p.2.1 : ℚ) + (digitsToNat p.2.2 : ℚ) / (10 : ℚ) ^ p.2.2.length
  if p.1 then -mag else mag

/-- JavaScript `parseFloat` on the cleaned money string. -/
def parseFloatQ (s : List Char) : Option ℚ := (parseFloatParts s).map ratOfParts

/-- `GenerateCSVToshlStrategy.parseInt`: strip every character that is not
a digit, comma, period or minus, replace the first comma by a period, run
`parseFloat`, and map `NaN` (and the falsy empty input) to `0`. -/
def parseIntM (moneyStr : String) : ℚ :=
  if moneyStr = "" then 0
  else
    match parseFloatQ (replaceFirstComma (moneyStr.data.filter moneyCharOk)) with
    | some q => q
    | none => 0

/-! ## Date normalization: `GenerateCSVToshlStrategy.formatDate` -/

/-- The fixed Dutch month-name table of `formatDate`.  The JavaScript
object-property lookup `months[key]` is modelled as an association-list
lookup (a key such as `"constructor"` hitting the object prototype chain
is not modelled). -/
def months : List (List Char × List Char) :=
  [("januari".data, "01".data), ("februari".data, "02".data),
   ("maart".data, "03".data), ("april".data, "04".data),
   ("mei".data, "05".data), ("juni".data, "06".data),
   ("juli".data, "07".data), ("augustus".data, "08".data),
   ("september".data, "09".data), ("oktober".data, "10".data),
   ("november".data, "11".data), ("december".data, "12".data)]

/-- The `"DD month YYYY"` branch of `formatDate`: split on single spaces;
on exactly three parts with a known month name, build `YYYY-MM-DD`. -/
def tryDMY (t : List Char) : Option (List Char) :=
  match splitOnCharL ' ' t with
  | [p0, p1, p2] =>
    match months.lookup (toLowerL p1) with
    | some m => some (p2 ++ '-' :: m ++ '-' :: padStart2L p0)
    | none => none
  | _ => none

/-- Attempt of the regex `/(\w+)\s+(\d{1,2}),\s+(\d{4})/` at the start of
`s`, with JavaScript backtracking semantics (on this pattern: the word run
and whitespace runs are maximal, the day run must have length 1 or 2 and
be followed by the comma, the year is the first four of at least four
digits).  Returns the three capture groups. -/
def matchMDYAt (s : List Char) : Option (List Char × List Char × List Char) :=
  let w := s.takeWhile isWordChar
  if w = [] then none
  else
    let r1 := s.drop w.length
    let ws1 := r1.takeWhile isWsChar
    if ws1 = [] then none
    else
      let r2 := r1.drop ws1.length
      let d := r2.takeWhile Char.isDigit
      if d = [] ∨ 2 < d.length then none
      else
        match r2.drop d.length with
        | ',' :: r3 =>
          let ws2 := r3.takeWhile isWsChar
          if ws2 = [] then none
          else
            let y := (r3.drop ws2.length).takeWhile Char.isDigit
            if 4 ≤ y.length then some (w, d, y.take 4) else none
        | _ => none

/-- Leftmost match of `/(\w+)\s+(\d{1,2}),\s+(\d{4})/` in `s`. -/
def searchMDY : List Char → Option (List Char × List Char × List Char)
  | [] => none
  | c :: rest =>
    match matchMDYAt (c :: rest) with
    | some r => some r
    | none => searchMDY rest

/-- `GenerateCSVToshlStrategy.formatDate`.  `today` stands for
`new Date().toISOString().split('T')[0]`, the only environment input. -/
def formatDate (today : String) (dateStr : Option String) : String :=
  match dateStr with
  | none => today
  | some s0 =>
    if s0 = "" then today
    else
      let t := jsTrimL s0.data
      match tryDMY t with
      | some r => String.mk r
      | none =>
        match searchMDY t with
        | some g =>
          match months.lookup (toLowerL g.1) with
          | some m => String.mk (g.2.2 ++ '-' :: m ++ '-' :: padStart2L g.2.1)
          | none => String.mk t
        | none => String.mk t

/-! ## Status classification: `GenerateCSVToshlStrategy.parseDeliveryStatus` -/

/-- The `DeliveryStatus` enum of OrderDetails.ts. -/
inductive DeliveryStatus where
  | Delivered
  | Returned
  | ProcessingRefund
  | Undeliverable
  | Expected
  | PossiblyLost
  | Refunded
  | Unknown
deriving DecidableEq

/-- The runtime string value of a `DeliveryStatus` enum member. -/
def statusText : DeliveryStatus → String
  | .Delivered => "Delivered"
  | .Returned => "Returned"
  | .ProcessingRefund => "ProcessingRefund"
  | .Undeliverable => "Undeliverable"
  | .Expected => "Expected"
  | .PossiblyLost => "PossiblyLost"
  | .Refunded => "Refunded"
  | .Unknown => "Unknown"

/-- `statusStr?.trim().toLowerCase()` coerced to a string: JavaScript
turns an `undefined` operand of `+` into the literal text `"undefined"`. -/
def optTrimLower : Option String → List Char
  | none => "undefined".data
  | some s => toLowerL (jsTrimL s.data)

/-- The concatenated, trimmed, lowercased status string
`statusStr?.trim().toLowerCase() + " " + statusStr2?.trim().toLowerCase()`. -/
def concatStatus (s1 s2 : Option String) : List Char :=
  optTrimLower s1 ++ ' ' :: optTrimLower s2

/-- The end-anchored regex `/(\d{1,2}) (\w+)$/`: the maximal trailing
word-character run, preceded by one literal space, preceded by one or two
digits (the last two of a longer digit run, by leftmost-match
backtracking).  Returns the day digits and the word. -/
def extractTrailingDM (c : List Char) : Option (List Char × List Char) :=
  let r := c.reverse
  let w := r.takeWhile isWordChar
  if w = [] then none
  else
    let rest0 := r.drop w.length
    if rest0.head? = some ' ' then
      let d := (rest0.tail.takeWhile Char.isDigit).take 2
      if d = [] then none else some (d.reverse, w.reverse)
    else none

/-- `this.formatDate("01 <word> 2024").split('-')[1]`: the month number
when the word is a known month name, and JavaScript's `undefined`
(rendered `"undefined"` by template interpolation) otherwise. -/
def monthViaFormatDate (today : String) (mw : List Char) : List Char :=
  let fd := formatDate today (some (String.mk ('0' :: '1' :: ' ' :: (mw ++ ' ' :: "2024".data))))
  (splitOnCharL '-' fd.data).getD 1 "undefined".data

/-- The keyword groups of the `parseDeliveryStatus` if-chain, in source
order. -/
def statusKeywords : List String :=
  ["bezorgd op", "geleverd op", "retourzending voltooid", "retour verwerkt",
   "terugbetaling wordt verwerkt", "terugbetaling in behandeling",
   "onbezorgbaar", "niet leverbaar", "werd verwacht op", "verwacht op",
   "je pakket is mogelijk zoekgeraakt", "pakket mogelijk zoekgeraakt",
   "gerestitueerd", "terugbetaald"]

/-- `GenerateCSVToshlStrategy.parseDeliveryStatus`. -/
def parseDeliveryStatus (today : String) (s1 s2 : Option String) :
    DeliveryStatus × Option String :=
  if ¬ (truthyOptStr s1 || truthyOptStr s2) then (.Unknown, none)
  else
    let c := concatStatus s1 s2
    let deliveryDate : Option String :=
      match extractTrailingDM c with
      | some dm =>
        some (String.mk ("2024".data ++ '-' ::
          (monthViaFormatDate today dm.2 ++ '-' :: padStart2L dm.1)))
      | none => none
    if containsL c "bezorgd op".data || containsL c "geleverd op".data then
      (.Delivered, deliveryDate)
    else if containsL c "retourzending voltooid".data || containsL c "retour verwerkt".data then
      (.Returned, deliveryDate)
    else if containsL c "terugbetaling wordt verwerkt".data || containsL c "terugbetaling in behandeling".data then
      (.ProcessingRefund, deliveryDate)
    else if containsL c "onbezorgbaar".data || containsL c "niet leverbaar".data then
      (.Undeliverable, deliveryDate)
    else if containsL c "werd verwacht op".data || containsL c "verwacht op".data then
      (.Expected, deliveryDate)
    else if containsL c "je pakket is mogelijk zoekgeraakt".data || containsL c "pakket mogelijk zoekgeraakt".data then
      (.PossiblyLost, deliveryDate)
    else if containsL c "gerestitueerd".data || containsL c "terugbetaald".data then
      (.Refunded, deliveryDate)
    else
      (.Unknown, deliveryDate)

/-! ## Data model -/

/-- `ItemDetails` (ItemDetails.ts).  `productId` is typed `string` but the
matcher guards it with optional chaining, so a missing identifier is
modelled as `none`. -/
structure ItemDetails where
  title : String
  returnPolicy : String
  price : Option String
  productId : Option String
  href : String
  qty : String
deriving DecidableEq, Inhabited

/-- `OrderDetails` (OrderDetails.ts), with `url : URL` modelled by its
href string (`none` before `ScrapePricesStrategy` assigns it) and the
`deliveryStatus` enum by its runtime string value. -/
structure OrderDetails where
  url : Option String
  orderId : String
  orderTotal : String
  deliveryStatus : String
  deliveryDate : String
  items : List ItemDetails
  orderPlacedDate : String
deriving DecidableEq, Inhabited

/-- `OrderItemDetails` (OrderItemDetails.ts): one flattened order/item
pair as pushed by `GenerateCSVToshlStrategy.process`. -/
structure OrderItemDetails where
  orderId : String
  orderPlacedDate : String
  orderTotal : String
  orderUrl : Option String
  deliveryStatus : String
  itemTitle : String
  itemUrl : String
  itemReturnPolicy : String
  itemPrice : Option String
  itemQty : String
  itemProductId : Option String
deriving DecidableEq, Inhabited

/-- One row as built by `GenerateCSVToshlStrategy.createCsvRecord`. -/
structure CsvRecord where
  orderDate : String
  itemDescription : String
  itemPrice : ℚ
  itemQty : ℚ
  currency : String
  orderTotal : ℚ

/-! ## CSV generation: `GenerateCSVToshlStrategy.process` -/

/-- `item.orderUrl?.href` under string concatenation: `undefined` is
rendered `"undefined"`. -/
def optHref : Option String → String
  | none => "undefined"
  | some u => u

/-- The flattening loop at the top of `process`: one `OrderItemDetails`
per item of each order, in input order. -/
def flattenOrders (orders : List OrderDetails) : List OrderItemDetails :=
  orders.flatMap fun order =>
    order.items.map fun item =>
      { orderId := jsTrim order.orderId
        orderPlacedDate := jsTrim order.orderPlacedDate
        orderTotal := jsTrim order.orderTotal
        orderUrl := order.url
        deliveryStatus := jsTrim order.deliveryStatus
        itemTitle := item.title
        itemUrl := item.href
        itemReturnPolicy := item.returnPolicy
        itemPrice := item.price
        itemQty := item.qty
        itemProductId := item.productId }

/-- One step of `groupItemsByOrder`: append the item to its order's
group, creating the group at the end on first sight of the key. -/
def addToGroups (gs : List (String × List OrderItemDetails)) (key : String)
    (it : OrderItemDetails) : List (String × List OrderItemDetails) :=
  match gs with
  | [] => [(key, [it])]
  | g :: rest =>
    if g.1 = key then (g.1, g.2 ++ [it]) :: rest
    else g :: addToGroups rest key it

/-- `GenerateCSVToshlStrategy.groupItemsByOrder`, as an association list
in first-appearance key order (JavaScript reorders integer-like object
keys first; group order does not affect any per-group property). -/
def groupItemsByOrder (l : List OrderItemDetails) :
    List (String × List OrderItemDetails) :=
  l.foldl (fun gs it => addToGroups gs it.orderId it) []

/-- `GenerateCSVToshlStrategy.createCsvRecord`. -/
def createCsvRecord (today : String) (item : OrderItemDetails)
    (itemPrice orderTotal : ℚ) : CsvRecord :=
  { orderDate := formatDate today (some item.orderPlacedDate)
    itemDescription :=
      statusText (parseDeliveryStatus today (some item.itemReturnPolicy)
          (some item.deliveryStatus)).1
        ++ " " ++ item.itemTitle ++ " [" ++ optHref item.orderUrl
        ++ "] - " ++ item.orderId
    itemPrice := itemPrice
    itemQty := parseIntM item.itemQty
    currency := "EUR"
    orderTotal := orderTotal }

/-- `this.parseInt(items[0].orderTotal)`. -/
def orderTotalOf (items : List OrderItemDetails) : ℚ :=
  parseIntM (items.headD default).orderTotal

/-- `items.filter(item => item.itemPrice !== undefined)`. -/
def itemsWithPrices (items : List OrderItemDetails) : List OrderItemDetails :=
  items.filter fun it => it.itemPrice ≠ none

/-- `itemsWithPrices.reduce((sum, item) => sum + qty * price, 0)`. -/
def knownPricesTotal (items : List OrderItemDetails) : ℚ :=
  (itemsWithPrices items).foldl
    (fun s it => s + parseIntM it.itemQty * parseIntM (it.itemPrice.getD "")) 0

/-- `items.filter(item => item.itemPrice === undefined)`. -/
def itemsWithoutPrices (items : List OrderItemDetails) : List OrderItemDetails :=
  items.filter fun it => it.itemPrice = none

/-- `Math.max(0, orderTotal - knownPricesTotal)`. -/
def remainingAmount (items : List OrderItemDetails) : ℚ :=
  max 0 (orderTotalOf items - knownPricesTotal items)

/-- The `for (let i = 0; ...)` distribution loop of `process`: every
item except the one at index `count - 1` receives `remaining / count`
(accumulated into `distributed`), and the item at index `count - 1`
receives `remaining - distributed`. -/
def distributeLoop (today : String) (remaining : ℚ) (count : Nat)
    (orderTotal : ℚ) : Nat → ℚ → List OrderItemDetails → List CsvRecord
  | _, _, [] => []
  | i, distributed, it :: rest =>
    if i = count - 1 then
      createCsvRecord today it (remaining - distributed) orderTotal ::
        distributeLoop today remaining count orderTotal (i + 1) distributed rest
    else
      createCsvRecord today it (remaining / count) orderTotal ::
        distributeLoop today remaining count orderTotal (i + 1)
          (distributed + remaining / count) rest

/-- The per-order body of the `for (const [orderId, items] of ...)` loop
of `GenerateCSVToshlStrategy.process`: records for the priced items
first, then the distribution loop over the unpriced ones. -/
def processOrderGroup (today : String) (items : List OrderItemDetails) :
    List CsvRecord :=
  (itemsWithPrices items).map
    (fun it =>
      createCsvRecord today it
        (parseIntM (it.itemPrice.getD "") * parseIntM it.itemQty)
        (orderTotalOf items))
  ++ distributeLoop today (remainingAmount items)
      (itemsWithoutPrices items).length (orderTotalOf items) 0 0
      (itemsWithoutPrices items)

/-- `GenerateCSVToshlStrategy.process`: the produced CSV rows together
with the returned order list (the function returns its `orders` argument
and never writes to the orders or their items). -/
def csvProcess (today : String) (orders : List OrderDetails) :
    List CsvRecord × List OrderDetails :=
  ((groupItemsByOrder (flattenOrders orders)).foldl
    (fun recs g => recs ++ processOrderGroup today g.2) [],
   orders)

/-! ## Price scraping: `ScrapePricesStrategy`

The DOM layer (JSDOM parsing and the CSS selector lists) is outside the
embedding: a shipment element enters the model as the record of the four
fields `processShipmentElements` extracts from it, and an element whose
processing threw inside the per-element `try` is `none` (caught and
skipped). -/

/-- The fields extracted from one shipment element: `extractedPrice`
(non-empty trimmed text or `undefined`), `productId`, `itemTitle`, and
`itemQty` (defaulted to `"1"` by the extraction code). -/
structure ShipmentFragment where
  price : Option String
  productId : Option String
  title : Option String
  qty : String
deriving DecidableEq, Inhabited

/-- The identifier rule of the matcher:
`productId && item.productId?.trim() === productId?.trim()`. -/
def matchesById (f : ShipmentFragment) (it : ItemDetails) : Bool :=
  truthyOptStr f.productId &&
    match it.productId with
    | some p => jsTrim p = jsTrim (f.productId.getD "")
    | none => false

/-- The title rule of the matcher:
`itemTitle && item.title && item.title.includes(itemTitle)`. -/
def matchesByTitle (f : ShipmentFragment) (it : ItemDetails) : Bool :=
  truthyOptStr f.title && it.title ≠ "" &&
    containsL it.title.data (f.title.getD "").data

/-- The predicate of `order.items.find(...)` in
`processShipmentElements`: identifier rule or title rule, per item. -/
def matchesFragment (f : ShipmentFragment) (it : ItemDetails) : Bool :=
  matchesById f it || matchesByTitle f it

/-- `if (productId || itemTitle) { order.items.find(...) }`: the first
item, in input order, satisfying either rule. -/
def findMatchingItem (f : ShipmentFragment) (items : List ItemDetails) :
    Option ItemDetails :=
  if truthyOptStr f.productId || truthyOptStr f.title then
    items.find? (matchesFragment f)
  else none

/-- Index of the first element satisfying `P` (the position at which
`Array.prototype.find` stops). -/
def findIdxL (P : ItemDetails → Bool) : List ItemDetails → Option Nat
  | [] => none
  | x :: l => if P x then some 0 else (findIdxL P l).map (· + 1)

/-- State of the dedup loop: the order's (mutated-in-place) item list and
the `uniqueItems` map, modelled as an insertion-ordered association list
from item-title key to the index of the aliased item in `items`. -/
structure ScrapeState where
  items : List ItemDetails
  assoc : List (String × Nat)
deriving DecidableEq, Inhabited

/-- One iteration of the `for (const shipmentElement of shipmentElements)`
loop of `processShipmentElements` (`none` = the per-element `try` threw;
caught, state unchanged).  A matched fragment is keyed by the matched
item's title: an unseen key populates the record from the matched item
(`price = extractedPrice ?? price`, `qty = itemQty`) and inserts it; a
seen key updates only the price, and only when the stored record's price
is still falsy and a price was extracted. -/
def scrapeStep (st : ScrapeState) (of : Option ShipmentFragment) : ScrapeState :=
  match of with
  | none => st
  | some f =>
    if truthyOptStr f.productId || truthyOptStr f.title then
      match findIdxL (matchesFragment f) st.items with
      | none => st
      | some i =>
        let it := st.items.getD i default
        let key := it.title
        match st.assoc.lookup key with
        | some j =>
          let stored := st.items.getD j default
          if ¬ truthyOptStr stored.price ∧ truthyOptStr f.price then
            { st with items := st.items.set j { stored with price := f.price } }
          else st
        | none =>
          let upd := { it with
            price := match f.price with
              | some p => some p
              | none => it.price
            qty := f.qty }
          { items := st.items.set i upd, assoc := st.assoc ++ [(key, i)] }
    else st

/-- The fold of `scrapeStep` over the shipment elements, starting from
the order's items and an empty `uniqueItems` map. -/
def runScrape (frags : List (Option ShipmentFragment))
    (items0 : List ItemDetails) : ScrapeState :=
  frags.foldl scrapeStep ⟨items0, []⟩

/-- `ScrapePricesStrategy.processShipmentElements`: the values of the
`uniqueItems` map in insertion order, or the order's item list when no
record was produced. -/
def processShipmentElements (frags : List (Option ShipmentFragment))
    (items0 : List ItemDetails) : List ItemDetails :=
  let st := runScrape frags items0
  let processedItems := st.assoc.map fun p => st.items.getD p.2 default
  if processedItems.isEmpty then st.items else processedItems

/-- What the browser environment yields for one order inside the `try`
of `ScrapePricesStrategy.process`: a failure before `order.url` is
assigned (URL construction, `goto` or `waitForSelector` threw), a failure
after it (`content()` threw), or the extracted shipment elements. -/
inductive ScrapeOutcome where
  | failBeforeUrl
  | failAfterUrl
  | success (frags : List (Option ShipmentFragment))

/-- `String.prototype.replace(pat, rep)` for string `pat`: only the first
occurrence is replaced. -/
def replaceFirstSubL (pat rep : List Char) : List Char → List Char
  | [] => if pat = [] then rep else []
  | c :: rest =>
    if isPrefixL pat (c :: rest) then rep ++ (c :: rest).drop pat.length
    else c :: replaceFirstSubL pat rep rest

/-- `orderItemsTemplateUrl.href.replace('%%ORDER_NUMBER%%', order.orderId || '')`
(the `new URL` wrapper is kept as the raw href string; a throwing
constructor is a `failBeforeUrl` outcome). -/
def templateUrl (template orderId : String) : String :=
  String.mk (replaceFirstSubL "%%ORDER_NUMBER%%".data orderId.data template.data)

/-- The `try` body of the per-order loop of `ScrapePricesStrategy.process`
for one order, under environment `env`. -/
def enrichOrder (env : String → ScrapeOutcome) (template : String)
    (o : OrderDetails) : OrderDetails :=
  match env o.orderId with
  | .failBeforeUrl => o
  | .failAfterUrl => { o with url := some (templateUrl template o.orderId) }
  | .success frags =>
    { o with
      url := some (templateUrl template o.orderId)
      items := processShipmentElements frags o.items }

/-- The per-order loop of `ScrapePricesStrategy.process` with the
`processedOrderIds` set: a first-occurrence order is enriched, an order
whose id was already seen is skipped. -/
def scrapeGo (env : String → ScrapeOutcome) (template : String) :
    List String → List OrderDetails → List OrderDetails
  | _, [] => []
  | seen, o :: rest =>
    if o.orderId ∈ seen then o :: scrapeGo env template seen rest
    else enrichOrder env template o :: scrapeGo env template (o.orderId :: seen) rest

/-- `ScrapePricesStrategy.process`: returns the whole orders array, the
skipped duplicates included, in the original order. -/
def scrapeProcess (env : String → ScrapeOutcome) (template : String)
    (orders : List OrderDetails) : List OrderDetails :=
  scrapeGo env template [] orders

/-- Well-formedness of the dedup state, established by `runScrape` from
its empty initial map: every map entry points inside the item list and at
the item carrying its key (the JavaScript map value is an alias of that
item). -/
def ScrapeStateWF (st : ScrapeState) : Prop :=
  ∀ p ∈ st.assoc, p.2 < st.items.length ∧ (st.items.getD p.2 default).title = p.1

/-- Modelled from the spec's words (claim C2), for comparison with
`distributeLoop`: each of the first `n - 1` unpriced items receives
`remaining / n` and the last receives `remaining` minus the amount
already distributed, i.e. `remaining - (n - 1) * (remaining / n)`. -/
def specAllocAmounts (remaining : ℚ) (n : Nat) : List ℚ :=
  List.replicate (n - 1) (remaining / n) ++
    [remaining - ((n - 1 : ℕ) : ℚ) * (remaining / n)]

/-! ## Concrete test data used by counterexamples and witnesses -/

/-- A flattened order item with quantity `"2"` and no discovered price,
for an order with total `"10"`. -/
def qtyTwoItem : OrderItemDetails :=
  { orderId := "A1", orderPlacedDate := "", orderTotal := "10",
    orderUrl := none, deliveryStatus := "", itemTitle := "X", itemUrl := "",
    itemReturnPolicy := "", itemPrice := none, itemQty := "2",
    itemProductId := none }

/-- The unpriced line item of `qtyTwoOrder`. -/
def qtyTwoLineItem : ItemDetails :=
  { title := "X", returnPolicy := "", price := none, productId := none,
    href := "", qty := "2" }

/-- An order with total `"10"` and a single unpriced item of quantity
`"2"`. -/
def qtyTwoOrder : OrderDetails :=
  { url := none, orderId := "A1", orderTotal := "10", deliveryStatus := "",
    deliveryDate := "", items := [qtyTwoLineItem], orderPlacedDate := "" }

/-- Flattened items of an order with total `"30"`, three unpriced items
of quantity `"1"`. -/
def threeUnpricedItems : List OrderItemDetails :=
  [{ qtyTwoItem with orderTotal := "30", itemTitle := "A", itemQty := "1" },
   { qtyTwoItem with orderTotal := "30", itemTitle := "B", itemQty := "1" },
   { qtyTwoItem with orderTotal := "30", itemTitle := "C", itemQty := "1" }]

/-- An order item whose identifier matches `idTitleFragment` only by the
title-containment rule. -/
def titleOnlyItem : ItemDetails :=
  { title := "Blue Widget Deluxe", returnPolicy := "", price := none,
    productId := some "X1", href := "", qty := "1" }

/-- An order item whose identifier matches `idTitleFragment` by the
identifier rule. -/
def idMatchItem : ItemDetails :=
  { title := "Gadget", returnPolicy := "", price := none,
    productId := some "B0012345678", href := "", qty := "1" }

/-- A fragment carrying both a product identifier (equal to
`idMatchItem`'s) and a title (contained in `titleOnlyItem`'s). -/
def idTitleFragment : ShipmentFragment :=
  { price := some "9,99", productId := some "B0012345678",
    title := some "Widget", qty := "1" }

/-- A fragment matching `titleOnlyItem` by title and carrying a price. -/
def pricedFragment : ShipmentFragment :=
  { price := some "22,99", productId := none, title := some "Widget",
    qty := "1" }

/-- A second fragment for the same item carrying a different price. -/
def otherPricedFragment : ShipmentFragment :=
  { price := some "11,11", productId := none, title := some "Widget",
    qty := "3" }

/-- A fragment matching nothing in `[titleOnlyItem]`. -/
def unmatchedFragment : ShipmentFragment :=
  { price := some "5,00", productId := some "ZZZZZZZZZZ",
    title := some "Nonexistent thing", qty := "1" }

/-- Position `i` holds a duplicate order: some earlier position carries
the same `orderId`. -/
def dupBefore (orders : List OrderDetails) (i : Nat) : Prop :=
  ∃ j, j < i ∧ (orders.getD j default).orderId =
    (orders.getD i default).orderId

/-- A constant scraping environment for witnesses: every order's page
yields one priced fragment. -/
def constScrapeEnv : String → ScrapeOutcome :=
  fun _ => ScrapeOutcome.success [some pricedFragment]

/-! ## Helper lemmas -/

theorem parseIntM_eq_ratOfParts (s : String) (b : Bool) (ip fp : List Char)
    (hs : ¬ s = "")
    (hp : parseFloatParts (replaceFirstComma (s.data.filter moneyCharOk)) =
      some (b, ip, fp)) :
    parseIntM s = ratOfParts (b, ip, fp) := by
  unfold parseIntM parseFloatQ
  rw [if_neg hs, hp]
  rfl

theorem ratOfParts_pos_digits (ip : List Char) (n : Nat)
    (hd : digitsToNat ip = n) :
    ratOfParts (false, ip, []) = (n : ℚ) := by
  simp only [ratOfParts, hd]
  norm_num [digitsToNat]

theorem parseIntM_ten : parseIntM "10" = 10 := by
  rw [parseIntM_eq_ratOfParts "10" false ['1', '0'] [] (by decide) (by decide),
    ratOfParts_pos_digits _ 10 (by decide)]
  norm_num

theorem parseIntM_thirty : parseIntM "30" = 30 := by
  rw [parseIntM_eq_ratOfParts "30" false ['3', '0'] [] (by decide) (by decide),
    ratOfParts_pos_digits _ 30 (by decide)]
  norm_num

theorem parseIntM_two : parseIntM "2" = 2 := by
  rw [parseIntM_eq_ratOfParts "2" false ['2'] [] (by decide) (by decide),
    ratOfParts_pos_digits _ 2 (by decide)]
  norm_num

theorem foldl_add_map {α : Type} (f : α → ℚ) :
    ∀ (l : List α) (c : ℚ), l.foldl (fun s a => s + f a) c = c + (l.map f).sum
  | [], c => by simp
  | a :: l, c => by
    rw [List.foldl_cons, foldl_add_map f l (c + f a)]
    simp [add_assoc]

theorem distributeLoop_eq_zipWith (today : String) (r ot : ℚ) (count : Nat) :
    ∀ (l : List OrderItemDetails) (i : Nat) (d : ℚ), l ≠ [] →
      i + l.length = count →
      distributeLoop today r count ot i d l =
        List.zipWith (fun it a => createCsvRecord today it a ot) l
          (List.replicate (l.length - 1) (r / count) ++
            [r - (d + ((l.length - 1 : ℕ) : ℚ) * (r / count))]) := by
  intro l
  induction l with
  | nil => intro i d h; exact absurd rfl h
  | cons it rest ih =>
    intro i d _ hlen
    cases rest with
    | nil =>
      have hi : i = count - 1 := by simp at hlen; omega
      simp [distributeLoop, hi]
    | cons it2 rest2 =>
      have hi : ¬ i = count - 1 := by simp at hlen; omega
      rw [distributeLoop, if_neg hi,
        ih (i + 1) (d + r / count) (by simp) (by simp at hlen ⊢; omega)]
      simp only [List.length_cons, Nat.add_sub_cancel, List.replicate_succ,
        List.cons_append, List.zipWith_cons_cons]
      congr 3
      push_cast
      ring_nf

theorem specAllocAmounts_sum (r : ℚ) (n : Nat) :
    (specAllocAmounts r n).sum = r := by
  unfold specAllocAmounts
  simp [List.sum_replicate, nsmul_eq_mul]

theorem distributeLoop_from_start (today : String) (r ot : ℚ)
    (l : List OrderItemDetails) (h : l ≠ []) :
    distributeLoop today r l.length ot 0 0 l =
      List.zipWith (fun it a => createCsvRecord today it a ot) l
        (specAllocAmounts r l.length) := by
  rw [distributeLoop_eq_zipWith today r ot l.length l 0 0 h (by simp)]
  unfold specAllocAmounts
  congr 2
  rw [zero_add]

theorem zipWith_create_map_itemPrice (today : String) (ot : ℚ) :
    ∀ (l : List OrderItemDetails) (amounts : List ℚ),
      l.length = amounts.length →
      (List.zipWith (fun it a => createCsvRecord today it a ot) l
        amounts).map CsvRecord.itemPrice = amounts
  | [], [], _ => rfl
  | [], _ :: _, h => by simp at h
  | _ :: _, [], h => by simp at h
  | it :: l, a :: amounts, h => by
    simp only [List.zipWith_cons_cons, List.map_cons]
    rw [zipWith_create_map_itemPrice today ot l amounts (by simpa using h)]
    rfl

theorem knownPricesTotal_eq_map_sum (items : List OrderItemDetails) :
    knownPricesTotal items =
      ((itemsWithPrices items).map
        (fun it => parseIntM it.itemQty * parseIntM (it.itemPrice.getD ""))).sum := by
  unfold knownPricesTotal
  rw [foldl_add_map, zero_add]

/-- C1 (claim as stated is refuted): for the order `qtyTwoOrder` — total
`"10"`, a single unpriced item of quantity `"2"` — the sum over the CSV
records of the allocated item price times the parsed quantity is `20`,
not the parsed order total `10`, so it is not within `0.01` of it. -/
theorem c1_claim_counterexample :
    ¬ (|(((csvProcess "2024-01-01" [qtyTwoOrder]).1.map
          (fun r => r.itemPrice * r.itemQty)).sum -
        orderTotalOf (flattenOrders [qtyTwoOrder]))| ≤ 1 / 100) := by
  have hflat : flattenOrders [qtyTwoOrder] = [qtyTwoItem] := by decide
  have hgroups : groupItemsByOrder (flattenOrders [qtyTwoOrder]) =
      [("A1", [qtyTwoItem])] := by decide
  have hwith : itemsWithPrices [qtyTwoItem] = [] := by decide
  have hwithout : itemsWithoutPrices [qtyTwoItem] = [qtyTwoItem] := by decide
  have htot : orderTotalOf [qtyTwoItem] = 10 := by
    show parseIntM ([qtyTwoItem].headD default).orderTotal = 10
    exact parseIntM_ten
  have hknown : knownPricesTotal [qtyTwoItem] = 0 := by
    rw [knownPricesTotal_eq_map_sum, hwith]; rfl
  have hrem : remainingAmount [qtyTwoItem] = 10 := by
    unfold remainingAmount
    rw [htot, hknown]
    norm_num
  have hrecs : (csvProcess "2024-01-01" [qtyTwoOrder]).1 =
      processOrderGroup "2024-01-01" [qtyTwoItem] := by
    simp only [csvProcess]
    rw [hgroups]
    simp
  rw [hrecs, hflat]
  unfold processOrderGroup
  rw [hwith, hwithout]
  simp only [List.map_nil, List.nil_append, List.length_singleton]
  have hloop : distributeLoop "2024-01-01" (remainingAmount [qtyTwoItem]) 1
      (orderTotalOf [qtyTwoItem]) 0 0 [qtyTwoItem] =
      [createCsvRecord "2024-01-01" qtyTwoItem (remainingAmount [qtyTwoItem] - 0)
        (orderTotalOf [qtyTwoItem])] := by
    simp [distributeLoop]
  rw [hloop]
  simp only [List.map_cons, List.map_nil, List.sum_cons, List.sum_nil, add_zero]
  show ¬ (|(remainingAmount [qtyTwoItem] - 0) * parseIntM qtyTwoItem.itemQty -
    orderTotalOf [qtyTwoItem]| ≤ 1 / 100)
  have hq2 : parseIntM qtyTwoItem.itemQty = 2 := parseIntM_two
  rw [hq2, hrem, htot]
  norm_num

/-- C1 (amended): for every order group that has at least one item
without a resolved price and whose known-price sum does not exceed the
parsed order total, the sum of the allocated CSV amounts (each record's
`itemPrice`, which for priced items already incorporates the quantity)
equals the parsed order total exactly. -/
theorem c1_allocated_amounts_sum (today : String)
    (items : List OrderItemDetails)
    (h1 : itemsWithoutPrices items ≠ [])
    (h2 : knownPricesTotal items ≤ orderTotalOf items) :
    ((processOrderGroup today items).map CsvRecord.itemPrice).sum =
      orderTotalOf items := by
  unfold processOrderGroup
  rw [List.map_append, List.sum_append,
    distributeLoop_from_start _ _ _ _ h1,
    zipWith_create_map_itemPrice _ _ _ _ (by
      have hpos := List.length_pos.mpr h1
      simp [specAllocAmounts]
      omega),
    specAllocAmounts_sum, List.map_map]
  have hmap : (CsvRecord.itemPrice ∘ fun it =>
      createCsvRecord today it
        (parseIntM (it.itemPrice.getD "") * parseIntM it.itemQty)
        (orderTotalOf items)) = fun it =>
      parseIntM it.itemQty * parseIntM (it.itemPrice.getD "") := by
    funext it
    show parseIntM (it.itemPrice.getD "") * parseIntM it.itemQty = _
    ring
  rw [hmap, ← knownPricesTotal_eq_map_sum]
  unfold remainingAmount
  rw [max_eq_right (by linarith)]
  ring

/-- C1 witness: a group with total `"30"` and three unpriced items
satisfies both hypotheses, and its allocated amounts sum to the total. -/
theorem c1_allocated_amounts_sum_witness :
    (itemsWithoutPrices threeUnpricedItems ≠ [] ∧
      knownPricesTotal threeUnpricedItems ≤ orderTotalOf threeUnpricedItems) ∧
    ((processOrderGroup "2024-01-01" threeUnpricedItems).map
      CsvRecord.itemPrice).sum = orderTotalOf threeUnpricedItems := by
  have p1 : itemsWithoutPrices threeUnpricedItems ≠ [] := by decide
  have hk : knownPricesTotal threeUnpricedItems = 0 := by
    rw [knownPricesTotal_eq_map_sum,
      show itemsWithPrices threeUnpricedItems = [] from by decide]
    rfl
  have ht : orderTotalOf threeUnpricedItems = 30 := parseIntM_thirty
  have p2 : knownPricesTotal threeUnpricedItems ≤
      orderTotalOf threeUnpricedItems := by
    rw [hk, ht]; norm_num
  exact ⟨⟨p1, p2⟩, c1_allocated_amounts_sum "2024-01-01" threeUnpricedItems p1 p2⟩

/-- C2: for every order group with at least one unpriced item, the
allocator computes `remaining = max(0, orderTotal - knownSum)`, emits the
priced-item records first and then pairs the unpriced items, in stable
input order, with the amounts `remaining / n` for each of the first
`n - 1` of them and `remaining` minus the distributed amount
(`remaining - (n - 1) * (remaining / n)`) for the last, and those amounts
sum to `remaining` exactly. -/
theorem c2_remainder_distribution (today : String)
    (items : List OrderItemDetails)
    (h : itemsWithoutPrices items ≠ []) :
    remainingAmount items =
      max 0 (orderTotalOf items - knownPricesTotal items) ∧
    processOrderGroup today items =
      (itemsWithPrices items).map
        (fun it => createCsvRecord today it
          (parseIntM (it.itemPrice.getD "") * parseIntM it.itemQty)
          (orderTotalOf items)) ++
      List.zipWith (fun it a => createCsvRecord today it a (orderTotalOf items))
        (itemsWithoutPrices items)
        (specAllocAmounts (remainingAmount items)
          (itemsWithoutPrices items).length) ∧
    (specAllocAmounts (remainingAmount items)
      (itemsWithoutPrices items).length).sum = remainingAmount items := by
  refine ⟨rfl, ?_, specAllocAmounts_sum _ _⟩
  unfold processOrderGroup
  rw [distributeLoop_from_start _ _ _ _ h]

/-- C2 witness: the three-unpriced-item group of total `"30"`. -/
theorem c2_remainder_distribution_witness :
    itemsWithoutPrices threeUnpricedItems ≠ [] ∧
    (remainingAmount threeUnpricedItems =
      max 0 (orderTotalOf threeUnpricedItems -
        knownPricesTotal threeUnpricedItems) ∧
    processOrderGroup "2024-01-01" threeUnpricedItems =
      (itemsWithPrices threeUnpricedItems).map
        (fun it => createCsvRecord "2024-01-01" it
          (parseIntM (it.itemPrice.getD "") * parseIntM it.itemQty)
          (orderTotalOf threeUnpricedItems)) ++
      List.zipWith (fun it a => createCsvRecord "2024-01-01" it a
          (orderTotalOf threeUnpricedItems))
        (itemsWithoutPrices threeUnpricedItems)
        (specAllocAmounts (remainingAmount threeUnpricedItems)
          (itemsWithoutPrices threeUnpricedItems).length) ∧
    (specAllocAmounts (remainingAmount threeUnpricedItems)
      (itemsWithoutPrices threeUnpricedItems).length).sum =
      remainingAmount threeUnpricedItems) := by
  have p1 : itemsWithoutPrices threeUnpricedItems ≠ [] := by decide
  exact ⟨p1, c2_remainder_distribution "2024-01-01" threeUnpricedItems p1⟩

/-- C3 (claim as stated is refuted): `GenerateCSVToshlStrategy.process`
never writes a price onto a LineItem, so after processing `qtyTwoOrder`
its only item still has `price = none`: it is not the case that every
LineItem ends with a defined, nonnegative price. -/
theorem c3_claim_counterexample :
    ¬ (∀ o ∈ (csvProcess "2024-01-01" [qtyTwoOrder]).2, ∀ it ∈ o.items,
        it.price ≠ none ∧ 0 ≤ parseIntM (it.price.getD "")) := by
  intro h
  exact (h qtyTwoOrder (List.mem_singleton.mpr rfl) qtyTwoLineItem
    (List.mem_singleton.mpr rfl)).1 rfl

theorem distributeLoop_nonneg (today : String) (r ot : ℚ) (count : Nat)
    (hr : 0 ≤ r) :
    ∀ (l : List OrderItemDetails) (i : Nat) (d : ℚ),
      i + l.length = count → d = (i : ℚ) * (r / count) →
      ∀ rec ∈ distributeLoop today r count ot i d l, 0 ≤ rec.itemPrice := by
  intro l
  induction l with
  | nil => intro i d _ _ rec hrec; simp [distributeLoop] at hrec
  | cons it rest ih =>
    intro i d hlen hd rec hrec
    rw [distributeLoop] at hrec
    by_cases hi : i = count - 1
    · rw [if_pos hi] at hrec
      have hrest : rest = [] := by
        have : rest.length = 0 := by simp at hlen; omega
        exact List.length_eq_zero.mp this
      subst hrest
      simp only [distributeLoop, List.mem_singleton] at hrec
      subst hrec
      show 0 ≤ r - d
      have hcount : count = i + 1 := by simp at hlen; omega
      have hc0 : ((count : ℚ)) ≠ 0 := by
        rw [hcount]; push_cast; positivity
      have hdval : d = ((count : ℚ) - 1) * (r / count) := by
        rw [hd, hcount]; push_cast; ring
      have hkey : r - d = r / count := by
        rw [hdval]; field_simp; ring
      rw [hkey]
      exact div_nonneg hr (Nat.cast_nonneg count)
    · rw [if_neg hi] at hrec
      rcases List.mem_cons.mp hrec with hh | ht
      · subst hh
        exact div_nonneg hr (Nat.cast_nonneg count)
      · exact ih (i + 1) (d + r / count) (by simp at hlen ⊢; omega)
          (by rw [hd]; push_cast; ring) rec ht

/-- C3 (amended): `GenerateCSVToshlStrategy.process` returns the orders
and their LineItems unchanged — no price is ever written back onto an
item, so unresolved prices stay `undefined`; what holds instead is that
every CSV amount allocated to an item lacking a price is ≥ 0 (the
clamped remainder is nonnegative and so is each share of it). -/
theorem c3_frame_and_nonneg (today : String) (orders : List OrderDetails)
    (items : List OrderItemDetails) :
    (csvProcess today orders).2 = orders ∧
    (∀ rec ∈ distributeLoop today (remainingAmount items)
        (itemsWithoutPrices items).length (orderTotalOf items) 0 0
        (itemsWithoutPrices items), 0 ≤ rec.itemPrice) := by
  refine ⟨rfl, ?_⟩
  exact distributeLoop_nonneg today (remainingAmount items)
    (orderTotalOf items) (itemsWithoutPrices items).length
    (le_max_left 0 _) (itemsWithoutPrices items) 0 0 (by simp)
    (by norm_num)

/-- C3 witness: the single-unpriced-item order `qtyTwoOrder` comes back
unchanged from `process`, and the one allocated amount is ≥ 0. -/
theorem c3_frame_and_nonneg_witness :
    (csvProcess "2024-01-01" [qtyTwoOrder]).2 = [qtyTwoOrder] ∧
    0 ≤ (createCsvRecord "2024-01-01" qtyTwoItem
        (remainingAmount [qtyTwoItem] - 0)
        (orderTotalOf [qtyTwoItem])).itemPrice := by
  have h := c3_frame_and_nonneg "2024-01-01" [qtyTwoOrder] [qtyTwoItem]
  refine ⟨h.1, h.2 _ ?_⟩
  have hug : distributeLoop "2024-01-01" (remainingAmount [qtyTwoItem])
      (itemsWithoutPrices [qtyTwoItem]).length (orderTotalOf [qtyTwoItem]) 0 0
      (itemsWithoutPrices [qtyTwoItem]) =
      [createCsvRecord "2024-01-01" qtyTwoItem
        (remainingAmount [qtyTwoItem] - 0) (orderTotalOf [qtyTwoItem])] := by
    rw [show itemsWithoutPrices [qtyTwoItem] = [qtyTwoItem] from by decide]
    simp [distributeLoop]
  rw [hug]
  exact List.mem_singleton.mpr rfl

/-- C7: `formatDate` maps `"13 januari 2024"` to `"2024-01-13"` and
`"september 22, 2024"` to `"2024-09-22"`; any input recognised by neither
the three-part branch nor the regex-with-known-month branch is returned
trimmed and otherwise unchanged; `null` and the empty string yield the
current date (`today`). -/
theorem c7_format_date (today : String) (s : String) (hs : s ≠ "")
    (hun1 : tryDMY (jsTrimL s.data) = none)
    (hun2 : ∀ g, searchMDY (jsTrimL s.data) = some g →
      months.lookup (toLowerL g.1) = none) :
    formatDate today (some "13 januari 2024") = "2024-01-13" ∧
    formatDate today (some "september 22, 2024") = "2024-09-22" ∧
    formatDate today (some s) = String.mk (jsTrimL s.data) ∧
    formatDate today none = today ∧
    formatDate today (some "") = today := by
  refine ⟨?_, ?_, ?_, rfl, rfl⟩
  · simp only [formatDate]
    rw [if_neg (by decide)]
    decide
  · simp only [formatDate]
    rw [if_neg (by decide)]
    decide
  · simp only [formatDate, hun1]
    rw [if_neg hs]
    rcases hsr : searchMDY (jsTrimL s.data) with _ | g
    · simp only [hsr]
    · simp only [hsr, hun2 g hsr]

/-- C7 witness: the unrecognised input `"invalid date"` together with the
concrete recognised and missing inputs. -/
theorem c7_format_date_witness :
    (("invalid date" : String) ≠ "" ∧
      tryDMY (jsTrimL "invalid date".data) = none ∧
      (∀ g, searchMDY (jsTrimL "invalid date".data) = some g →
        months.lookup (toLowerL g.1) = none)) ∧
    (formatDate "2026-10-11" (some "13 januari 2024") = "2024-01-13" ∧
     formatDate "2026-10-11" (some "september 22, 2024") = "2024-09-22" ∧
     formatDate "2026-10-11" (some "invalid date") =
       String.mk (jsTrimL "invalid date".data) ∧
     formatDate "2026-10-11" none = "2026-10-11" ∧
     formatDate "2026-10-11" (some "") = "2026-10-11") := by
  have p1 : ("invalid date" : String) ≠ "" := by decide
  have p2 : tryDMY (jsTrimL "invalid date".data) = none := by decide
  have p3 : ∀ g, searchMDY (jsTrimL "invalid date".data) = some g →
      months.lookup (toLowerL g.1) = none := by
    intro g hg
    rw [show searchMDY (jsTrimL "invalid date".data) = none from by decide] at hg
    exact absurd hg (by simp)
  exact ⟨⟨p1, p2, p3⟩, c7_format_date "2026-10-11" "invalid date" p1 p2 p3⟩

theorem concatStatus_falsy (s1 s2 : Option String)
    (hg : (truthyOptStr s1 || truthyOptStr s2) = false) :
    containsL (concatStatus s1 s2) "bezorgd op".data = false := by
  have h1 : truthyOptStr s1 = false := (Bool.or_eq_false_iff.mp hg).1
  have h2 : truthyOptStr s2 = false := (Bool.or_eq_false_iff.mp hg).2
  rcases s1 with _ | a
  · rcases s2 with _ | b
    · decide
    · have hb : b = "" := by simpa [truthyOptStr] using h2
      subst hb; decide
  · have ha : a = "" := by simpa [truthyOptStr] using h1
    subst ha
    rcases s2 with _ | b
    · decide
    · have hb : b = "" := by simpa [truthyOptStr] using h2
      subst hb; decide

/-- C8: `parseDeliveryStatus` trims, lowercases and concatenates its two
inputs and tests the result against the keyword groups in source order:
whenever the concatenated string contains `"bezorgd op"` the category is
`Delivered` (it is the first group), and whenever it matches none of the
keyword groups the category is the observable value `Unknown`. -/
theorem c8_status_classification (today : String) (s1 s2 : Option String) :
    (containsL (concatStatus s1 s2) "bezorgd op".data = true →
      (parseDeliveryStatus today s1 s2).1 = DeliveryStatus.Delivered) ∧
    ((∀ kw ∈ statusKeywords, containsL (concatStatus s1 s2) kw.data = false) →
      (parseDeliveryStatus today s1 s2).1 = DeliveryStatus.Unknown) := by
  by_cases hg : (truthyOptStr s1 || truthyOptStr s2) = true
  · constructor
    · intro h
      simp [parseDeliveryStatus, hg, h]
    · intro hall
      have k1 := hall "bezorgd op" (by simp [statusKeywords])
      have k2 := hall "geleverd op" (by simp [statusKeywords])
      have k3 := hall "retourzending voltooid" (by simp [statusKeywords])
      have k4 := hall "retour verwerkt" (by simp [statusKeywords])
      have k5 := hall "terugbetaling wordt verwerkt" (by simp [statusKeywords])
      have k6 := hall "terugbetaling in behandeling" (by simp [statusKeywords])
      have k7 := hall "onbezorgbaar" (by simp [statusKeywords])
      have k8 := hall "niet leverbaar" (by simp [statusKeywords])
      have k9 := hall "werd verwacht op" (by simp [statusKeywords])
      have k10 := hall "verwacht op" (by simp [statusKeywords])
      have k11 := hall "je pakket is mogelijk zoekgeraakt" (by simp [statusKeywords])
      have k12 := hall "pakket mogelijk zoekgeraakt" (by simp [statusKeywords])
      have k13 := hall "gerestitueerd" (by simp [statusKeywords])
      have k14 := hall "terugbetaald" (by simp [statusKeywords])
      simp [parseDeliveryStatus, hg, k1, k2, k3, k4, k5, k6, k7, k8, k9,
        k10, k11, k12, k13, k14]
  · have hg' : (truthyOptStr s1 || truthyOptStr s2) = false :=
      Bool.eq_false_iff.mpr hg
    constructor
    · intro h
      rw [concatStatus_falsy s1 s2 hg'] at h
      exact absurd h (by simp)
    · intro _
      simp [parseDeliveryStatus, hg']

/-- C8 witness: a concrete delivered status and a concrete unmatched
status. -/
theorem c8_status_classification_witness :
    (containsL (concatStatus (some "Pakket") (some "Bezorgd op 3 januari"))
        "bezorgd op".data = true ∧
      (∀ kw ∈ statusKeywords,
        containsL (concatStatus (some "Pakket") (some "status onbekend"))
          kw.data = false)) ∧
    (parseDeliveryStatus "T" (some "Pakket")
        (some "Bezorgd op 3 januari")).1 = DeliveryStatus.Delivered ∧
    (parseDeliveryStatus "T" (some "Pakket")
        (some "status onbekend")).1 = DeliveryStatus.Unknown := by
  have p1 : containsL (concatStatus (some "Pakket") (some "Bezorgd op 3 januari"))
      "bezorgd op".data = true := by decide
  have p2 : ∀ kw ∈ statusKeywords,
      containsL (concatStatus (some "Pakket") (some "status onbekend"))
        kw.data = false := by decide
  exact ⟨⟨p1, p2⟩,
    (c8_status_classification "T" (some "Pakket")
      (some "Bezorgd op 3 januari")).1 p1,
    (c8_status_classification "T" (some "Pakket")
      (some "status onbekend")).2 p2⟩

theorem takeWhile_all {α : Type} (P : α → Bool) :
    ∀ l : List α, (∀ c ∈ l, P c = true) → l.takeWhile P = l
  | [], _ => rfl
  | c :: l, h => by
    rw [List.takeWhile_cons, if_pos (h c (by simp)),
      takeWhile_all P l (fun x hx => h x (by simp [hx]))]

theorem takeWhile_append_stop {α : Type} (P : α → Bool) :
    ∀ (l1 : List α) (x : α) (l2 : List α), (∀ c ∈ l1, P c = true) →
      P x = false → (l1 ++ x :: l2).takeWhile P = l1
  | [], x, l2, _, hx => by simp [List.takeWhile_cons, hx]
  | c :: l1, x, l2, h, hx => by
    rw [List.cons_append, List.takeWhile_cons, if_pos (h c (by simp)),
      takeWhile_append_stop P l1 x l2 (fun y hy => h y (by simp [hy])) hx]

theorem dropWhile_head_neg {α : Type} (P : α → Bool) (l : List α)
    (h : ∀ x, l.head? = some x → P x = false) : l.dropWhile P = l := by
  cases l with
  | nil => rfl
  | cons c cs => rw [List.dropWhile_cons, if_neg (by simp [h c rfl])]

theorem jsTrimL_eq_self (l : List Char)
    (h1 : ∀ x, l.head? = some x → isWsChar x = false)
    (h2 : ∀ x, l.reverse.head? = some x → isWsChar x = false) :
    jsTrimL l = l := by
  unfold jsTrimL
  rw [dropWhile_head_neg _ l h1, dropWhile_head_neg _ l.reverse h2,
    List.reverse_reverse]

theorem splitOnCharL_append (sep : Char) :
    ∀ xs ys : List Char, (∀ c ∈ xs, ¬ c = sep) →
      splitOnCharL sep (xs ++ sep :: ys) = xs :: splitOnCharL sep ys
  | [], ys, _ => by simp [splitOnCharL]
  | c :: xs, ys, h => by
    rw [List.cons_append, splitOnCharL, if_neg (h c (by simp)),
      splitOnCharL_append sep xs ys (fun y hy => h y (by simp [hy]))]

theorem lookup_map_snd {α β : Type} [BEq α] :
    ∀ (T : List (α × β)) (k : α) (v : β), T.lookup k = some v →
      v ∈ T.map Prod.snd
  | [], _, _, h => by simp [List.lookup] at h
  | (a, b) :: T, k, v, h => by
    rw [List.lookup] at h
    cases hk : k == a
    · rw [hk] at h
      exact List.mem_cons_of_mem _ (lookup_map_snd T k v h)
    · rw [hk] at h
      simp only [Option.some.injEq] at h
      simp [h]

theorem extractTrailingDM_eq (p d m : List Char)
    (hm : m ≠ []) (hmw : ∀ c ∈ m, isWordChar c = true)
    (hd : d ≠ []) (hdlen : d.length ≤ 2) (hdd : ∀ c ∈ d, c.isDigit = true)
    (hp : p = [] ∨ ∃ q c, p = q ++ [c] ∧ c.isDigit = false) :
    extractTrailingDM (p ++ d ++ ' ' :: m) = some (d, m) := by
  have hrev : (p ++ d ++ ' ' :: m).reverse =
      m.reverse ++ ' ' :: (d.reverse ++ p.reverse) := by
    simp [List.reverse_append]
  have hw : (m.reverse ++ ' ' :: (d.reverse ++ p.reverse)).takeWhile isWordChar
      = m.reverse :=
    takeWhile_append_stop _ _ _ _
      (fun c hc => hmw c (List.mem_reverse.mp hc)) (by decide)
  have hwne : m.reverse ≠ [] := by simpa using hm
  have hdrev : (d.reverse ++ p.reverse).takeWhile Char.isDigit = d.reverse := by
    rcases hp with rfl | ⟨q, c, rfl, hc⟩
    · simp only [List.reverse_nil, List.append_nil]
      exact takeWhile_all _ _ (fun c hc => hdd c (List.mem_reverse.mp hc))
    · rw [show (q ++ [c]).reverse = c :: q.reverse from by simp]
      exact takeWhile_append_stop _ _ _ _
        (fun x hx => hdd x (List.mem_reverse.mp hx)) hc
  have hdtake : (d.reverse).take 2 = d.reverse :=
    List.take_of_length_le (by simpa using hdlen)
  have hdne : d.reverse ≠ [] := by simpa using hd
  simp only [extractTrailingDM, hrev, hw]
  rw [if_neg hwne, List.drop_left]
  simp only [List.head?_cons, List.tail_cons, hdrev, hdtake]
  rw [if_pos trivial, if_neg hdne, List.reverse_reverse, List.reverse_reverse]

theorem head?_append_left {α : Type} (l1 l2 : List α) (h : l1 ≠ []) :
    (l1 ++ l2).head? = l1.head? := by
  cases l1 with
  | nil => exact absurd rfl h
  | cons c cs => rfl

theorem tryDMY_dmy (m mm : List Char) (hnos : ∀ c ∈ m, ¬ c = ' ')
    (hlook : months.lookup (toLowerL m) = some mm) :
    tryDMY ('0' :: '1' :: ' ' :: (m ++ ' ' :: "2024".data)) =
      some ("2024".data ++ '-' :: mm ++ '-' :: padStart2L ['0', '1']) := by
  have hsplit : splitOnCharL ' ' ('0' :: '1' :: ' ' :: (m ++ ' ' :: "2024".data)) =
      [['0', '1'], m, "2024".data] := by
    rw [show ('0' :: '1' :: ' ' :: (m ++ ' ' :: "2024".data)) =
        ['0', '1'] ++ ' ' :: (m ++ ' ' :: "2024".data) from rfl,
      splitOnCharL_append ' ' ['0', '1'] _ (by decide),
      splitOnCharL_append ' ' m _ hnos,
      show splitOnCharL ' ' "2024".data = ["2024".data] from by decide]
  simp only [tryDMY, hsplit, hlook]

theorem monthViaFormatDate_eq (today : String) (m mm : List Char)
    (hmw : ∀ c ∈ m, isWordChar c = true)
    (hlook : months.lookup (toLowerL m) = some mm) :
    monthViaFormatDate today m = mm := by
  have hnos : ∀ c ∈ m, ¬ c = ' ' := by
    intro c hc he
    subst he
    exact absurd (hmw ' ' hc) (by decide)
  have hne : String.mk ('0' :: '1' :: ' ' :: (m ++ ' ' :: "2024".data)) ≠ "" := by
    simp [String.ext_iff]
  have hrevhead : ('0' :: '1' :: ' ' :: (m ++ ' ' :: "2024".data)).reverse.head?
      = some '4' := by
    rw [show ('0' :: '1' :: ' ' :: (m ++ ' ' :: "2024".data)) =
        ['0', '1', ' '] ++ (m ++ ' ' :: "2024".data) from rfl,
      List.reverse_append, List.reverse_append,
      show (' ' :: "2024".data).reverse = ['4', '2', '0', '2', ' '] from by decide,
      head?_append_left _ _ (by simp), head?_append_left _ _ (by decide)]
    rfl
  have htrim : jsTrimL ('0' :: '1' :: ' ' :: (m ++ ' ' :: "2024".data)) =
      '0' :: '1' :: ' ' :: (m ++ ' ' :: "2024".data) := by
    apply jsTrimL_eq_self
    · intro x hx
      simp only [List.head?_cons, Option.some.injEq] at hx
      subst hx
      decide
    · intro x hx
      rw [hrevhead] at hx
      simp only [Option.some.injEq] at hx
      subst hx
      decide
  have hfd : formatDate today
      (some (String.mk ('0' :: '1' :: ' ' :: (m ++ ' ' :: "2024".data)))) =
      String.mk ("2024".data ++ '-' :: mm ++ '-' :: padStart2L ['0', '1']) := by
    simp only [formatDate]
    rw [if_neg hne]
    simp only [show (String.mk ('0' :: '1' :: ' ' :: (m ++ ' ' :: "2024".data))).data
        = '0' :: '1' :: ' ' :: (m ++ ' ' :: "2024".data) from rfl,
      htrim, tryDMY_dmy m mm hnos hlook]
  unfold monthViaFormatDate
  rw [hfd]
  have hvals : ∀ v ∈ months.map Prod.snd, ∀ c ∈ v, ¬ c = '-' := by decide
  have hmdash : ∀ c ∈ mm, ¬ c = '-' :=
    hvals mm (lookup_map_snd months (toLowerL m) mm hlook)
  show (splitOnCharL '-'
      ("2024".data ++ '-' :: (mm ++ '-' :: padStart2L ['0', '1']))).getD 1
      "undefined".data = mm
  rw [splitOnCharL_append '-' "2024".data _ (by decide),
    splitOnCharL_append '-' mm _ hmdash]
  rfl

/-- C9: whenever the concatenated, lowercased status string ends with a
`"<day> <monthName>"` pattern — one or two day digits, one space, then a
trailing word that is a key of the month table — `parseDeliveryStatus`
returns alongside the category a delivery date `"2024-MM-DD"` whose month
`MM` comes from the month-name lookup, whose day is the zero-padded day,
and whose year is the assumed current year 2024. -/
theorem c9_trailing_delivery_date (today : String) (s1 s2 : Option String)
    (p d m mm : List Char)
    (hc : concatStatus s1 s2 = p ++ d ++ ' ' :: m)
    (hm : m ≠ []) (hmw : ∀ c ∈ m, isWordChar c = true)
    (hd : d ≠ []) (hdlen : d.length ≤ 2) (hdd : ∀ c ∈ d, c.isDigit = true)
    (hp : p = [] ∨ ∃ q c, p = q ++ [c] ∧ c.isDigit = false)
    (hlook : months.lookup (toLowerL m) = some mm) :
    (parseDeliveryStatus today s1 s2).2 =
      some (String.mk ("2024".data ++ '-' ::
        (mm ++ '-' :: padStart2L d))) := by
  have hg : (truthyOptStr s1 || truthyOptStr s2) = true := by
    by_contra hng
    have hg' := Bool.eq_false_iff.mpr hng
    have hdig : ∃ ch ∈ concatStatus s1 s2, ch.isDigit = true := by
      rcases d with _ | ⟨c0, d'⟩
      · exact absurd rfl hd
      · exact ⟨c0, by rw [hc]; simp, hdd c0 (by simp)⟩
    have hnd : ∀ ch ∈ concatStatus s1 s2, ch.isDigit = false := by
      have h1 : truthyOptStr s1 = false := (Bool.or_eq_false_iff.mp hg').1
      have h2 : truthyOptStr s2 = false := (Bool.or_eq_false_iff.mp hg').2
      rcases s1 with _ | a
      · rcases s2 with _ | b
        · decide
        · have hb : b = "" := by simpa [truthyOptStr] using h2
          subst hb; decide
      · have ha : a = "" := by simpa [truthyOptStr] using h1
        subst ha
        rcases s2 with _ | b
        · decide
        · have hb : b = "" := by simpa [truthyOptStr] using h2
          subst hb; decide
    rcases hdig with ⟨ch, hmem, hchd⟩
    rw [hnd ch hmem] at hchd
    exact absurd hchd (by simp)
  have hdm : extractTrailingDM (concatStatus s1 s2) = some (d, m) := by
    rw [hc]
    exact extractTrailingDM_eq p d m hm hmw hd hdlen hdd hp
  have hmonth : monthViaFormatDate today m = mm :=
    monthViaFormatDate_eq today m mm hmw hlook
  simp only [parseDeliveryStatus, hg, hdm]
  split_ifs <;> simp_all [hmonth]

/-- C9 witness: the concatenation of `"x"` and `"Bezorgd op 3 januari"`
ends with day `"3"` and month name `"januari"`, and the returned delivery
date is `"2024-01-03"`. -/
theorem c9_trailing_delivery_date_witness :
    (concatStatus (some "x") (some "Bezorgd op 3 januari") =
      "x bezorgd op ".data ++ ['3'] ++ ' ' :: "januari".data ∧
     months.lookup (toLowerL "januari".data) = some "01".data) ∧
    (parseDeliveryStatus "T" (some "x") (some "Bezorgd op 3 januari")).2 =
      some (String.mk ("2024".data ++ '-' ::
        ("01".data ++ '-' :: padStart2L ['3']))) := by
  have hc : concatStatus (some "x") (some "Bezorgd op 3 januari") =
      "x bezorgd op ".data ++ ['3'] ++ ' ' :: "januari".data := by decide
  have hlook : months.lookup (toLowerL "januari".data) = some "01".data := by
    decide
  refine ⟨⟨hc, hlook⟩, ?_⟩
  exact c9_trailing_delivery_date "T" (some "x") (some "Bezorgd op 3 januari")
    "x bezorgd op ".data ['3'] "januari".data "01".data hc (by decide)
    (by decide) (by decide) (by decide) (by decide)
    (Or.inr ⟨"x bezorgd op".data, ' ', by decide, by decide⟩) hlook

theorem find?_first_spec {α : Type} [Inhabited α] (P : α → Bool) :
    ∀ (l : List α) (a : α), l.find? P = some a →
      P a = true ∧ ∃ i, i < l.length ∧ l.getD i default = a ∧
        ∀ j, j < i → P (l.getD j default) = false
  | [], a, h => by simp at h
  | x :: l, a, h => by
    by_cases hx : P x = true
    · rw [List.find?_cons_of_pos _ hx] at h
      simp only [Option.some.injEq] at h
      subst h
      exact ⟨hx, 0, by simp, rfl, fun j hj => absurd hj (by omega)⟩
    · have hx' : P x = false := Bool.eq_false_iff.mpr hx
      rw [List.find?_cons_of_neg _ hx] at h
      obtain ⟨hPa, i, hi, hget, hprev⟩ := find?_first_spec P l a h
      refine ⟨hPa, i + 1, by simpa using hi, by simpa using hget, ?_⟩
      intro j hj
      cases j with
      | zero => simpa using hx'
      | succ j' => simpa using hprev j' (by omega)

/-- C4 (claim as stated is refuted): the fragment `idTitleFragment`
carries a product identifier that matches `idMatchItem` exactly, yet the
matcher returns `titleOnlyItem` — an earlier item matched only by the
title-containment rule — so the identifier rule is not given precedence
over the title rule across the item list. -/
theorem c4_claim_counterexample :
    findMatchingItem idTitleFragment [titleOnlyItem, idMatchItem] =
      some titleOnlyItem ∧
    matchesById idTitleFragment idMatchItem = true ∧
    matchesById idTitleFragment titleOnlyItem = false ∧
    matchesByTitle idTitleFragment titleOnlyItem = true := by decide

/-- C4 (amended): the matcher finds at most one item: the first item in
input order satisfying the per-item disjunction of the identifier rule
and the title rule.  Within one item the title rule only decides when the
identifier rule does not, but an identifier match on a later item does
not take precedence over an earlier title-only match.  When the matcher
returns nothing, no item satisfies either rule. -/
theorem c4_matcher_first_match (f : ShipmentFragment)
    (items : List ItemDetails) :
    (∀ it, findMatchingItem f items = some it →
      matchesFragment f it = true ∧
      ∃ i, i < items.length ∧ items.getD i default = it ∧
        ∀ j, j < i → matchesFragment f (items.getD j default) = false) ∧
    (findMatchingItem f items = none →
      ∀ it ∈ items, matchesFragment f it = false) := by
  constructor
  · intro it h
    unfold findMatchingItem at h
    by_cases hg : (truthyOptStr f.productId || truthyOptStr f.title) = true
    · rw [if_pos hg] at h
      exact find?_first_spec _ items it h
    · rw [if_neg hg] at h
      exact absurd h (by simp)
  · intro h it hit
    unfold findMatchingItem at h
    by_cases hg : (truthyOptStr f.productId || truthyOptStr f.title) = true
    · rw [if_pos hg] at h
      exact Bool.eq_false_iff.mpr (List.find?_eq_none.mp h it hit)
    · have hg' := Bool.eq_false_iff.mpr hg
      have h1 : truthyOptStr f.productId = false :=
        (Bool.or_eq_false_iff.mp hg').1
      have h2 : truthyOptStr f.title = false :=
        (Bool.or_eq_false_iff.mp hg').2
      unfold matchesFragment matchesById matchesByTitle
      rw [h1, h2]
      simp

/-- C4 witness: `pricedFragment` matches the single item of
`[titleOnlyItem]`, which is the first (index 0) match. -/
theorem c4_matcher_first_match_witness :
    findMatchingItem pricedFragment [titleOnlyItem] = some titleOnlyItem ∧
    (matchesFragment pricedFragment titleOnlyItem = true ∧
      ∃ i, i < [titleOnlyItem].length ∧
        [titleOnlyItem].getD i default = titleOnlyItem ∧
        ∀ j, j < i →
          matchesFragment pricedFragment ([titleOnlyItem].getD j default) =
            false) := by
  have h : findMatchingItem pricedFragment [titleOnlyItem] =
      some titleOnlyItem := by decide
  exact ⟨h, (c4_matcher_first_match pricedFragment [titleOnlyItem]).1
    titleOnlyItem h⟩

theorem getD_set {α : Type} [Inhabited α] :
    ∀ (l : List α) (i k : Nat) (v : α),
      (l.set i v).getD k default =
        if k = i ∧ i < l.length then v else l.getD k default
  | [], i, k, v => by simp
  | x :: l, 0, 0, v => by simp
  | x :: l, 0, k + 1, v => by simp
  | x :: l, i + 1, 0, v => by simp
  | x :: l, i + 1, k + 1, v => by
    show (l.set i v).getD k default = _
    rw [getD_set l i k v]
    by_cases h : k = i ∧ i < l.length
    · rw [if_pos h, if_pos (by simp only [List.length_cons]; omega)]
    · rw [if_neg h, if_neg (by simp only [List.length_cons]; omega)]
      simp

theorem findIdxL_spec (P : ItemDetails → Bool) :
    ∀ (l : List ItemDetails) (i : Nat), findIdxL P l = some i →
      i < l.length ∧ P (l.getD i default) = true
  | [], i, h => by simp [findIdxL] at h
  | x :: l, i, h => by
    rw [findIdxL] at h
    by_cases hx : P x = true
    · rw [if_pos hx] at h
      simp only [Option.some.injEq] at h
      subst h
      exact ⟨by simp, hx⟩
    · rw [if_neg hx] at h
      rcases hfi : findIdxL P l with _ | i'
      · rw [hfi] at h; simp at h
      · rw [hfi] at h
        simp only [Option.map_some', Option.some.injEq] at h
        subst h
        obtain ⟨hlt, hP⟩ := findIdxL_spec P l i' hfi
        exact ⟨by simpa using hlt, by simpa using hP⟩

theorem mem_lookup_isSome {α β : Type} [BEq α] [LawfulBEq α] :
    ∀ (T : List (α × β)) (k : α) (v : β), (k, v) ∈ T →
      ∃ w, T.lookup k = some w
  | [], k, v, h => by simp at h
  | (a, b) :: T, k, v, h => by
    rcases List.mem_cons.mp h with he | hm
    · have : k = a := by
        have := congrArg Prod.fst he
        simpa using this
      subst this
      exact ⟨b, by simp [List.lookup]⟩
    · cases hk : k == a
      · obtain ⟨w, hw⟩ := mem_lookup_isSome T k v hm
        exact ⟨w, by rw [List.lookup, hk]; exact hw⟩
      · exact ⟨b, by rw [List.lookup, hk]⟩

/-- Case analysis of one dedup step: the state is unchanged, or an
unseen key inserts the populated matched item, or a seen key with an
unpriced stored record and an extracted price updates that record's
price. -/
theorem scrapeStep_characterization (st : ScrapeState)
    (of : Option ShipmentFragment) :
    scrapeStep st of = st ∨
    (∃ f i, of = some f ∧
      findIdxL (matchesFragment f) st.items = some i ∧
      st.assoc.lookup (st.items.getD i default).title = none ∧
      scrapeStep st of =
        { items := st.items.set i
            { st.items.getD i default with
              price := (match f.price with
                | some pr => some pr
                | none => (st.items.getD i default).price),
              qty := f.qty },
          assoc :=
            st.assoc ++ [((st.items.getD i default).title, i)] }) ∨
    (∃ f i j, of = some f ∧
      findIdxL (matchesFragment f) st.items = some i ∧
      st.assoc.lookup (st.items.getD i default).title = some j ∧
      truthyOptStr (st.items.getD j default).price = false ∧
      truthyOptStr f.price = true ∧
      scrapeStep st of =
        { st with
          items :=
            st.items.set j ({ st.items.getD j default with price := f.price }) }) := by
  rcases of with _ | f
  · left; rfl
  · by_cases hg : (truthyOptStr f.productId || truthyOptStr f.title) = true
    · rcases hfi : findIdxL (matchesFragment f) st.items with _ | i
      · left
        show scrapeStep st (some f) = st
        simp only [scrapeStep]
        rw [if_pos hg, hfi]
      · rcases hlk : st.assoc.lookup (st.items.getD i default).title with _ | j
        · right; left
          refine ⟨f, i, rfl, hfi, hlk, ?_⟩
          simp only [scrapeStep]
          rw [if_pos hg, hfi]
          simp only []
          rw [hlk]
        · by_cases hcond : ¬ truthyOptStr (st.items.getD j default).price = true
            ∧ truthyOptStr f.price = true
          · right; right
            refine ⟨f, i, j, rfl, hfi, hlk,
              Bool.eq_false_iff.mpr hcond.1, hcond.2, ?_⟩
            simp only [scrapeStep]
            rw [if_pos hg, hfi]
            simp only []
            rw [hlk]
            simp only []
            rw [if_pos hcond]
          · left
            show scrapeStep st (some f) = st
            simp only [scrapeStep]
            rw [if_pos hg, hfi]
            simp only []
            rw [hlk]
            simp only []
            rw [if_neg hcond]
    · left
      show scrapeStep st (some f) = st
      simp only [scrapeStep]
      rw [if_neg hg]

theorem scrapeStep_assoc_extends (st : ScrapeState)
    (of : Option ShipmentFragment) :
    ∃ t, (scrapeStep st of).assoc = st.assoc ++ t := by
  rcases scrapeStep_characterization st of with h | ⟨f, i, _, _, _, h⟩ |
    ⟨f, i, j, _, _, _, _, _, h⟩
  · exact ⟨[], by simp [h]⟩
  · exact ⟨[((st.items.getD i default).title, i)], by rw [h]⟩
  · exact ⟨[], by simp [h]⟩

theorem foldl_assoc_extends :
    ∀ (frags : List (Option ShipmentFragment)) (st : ScrapeState),
      ∃ t, (frags.foldl scrapeStep st).assoc = st.assoc ++ t
  | [], st => ⟨[], by simp⟩
  | of :: frags, st => by
    obtain ⟨t1, ht1⟩ := scrapeStep_assoc_extends st of
    obtain ⟨t2, ht2⟩ := foldl_assoc_extends frags (scrapeStep st of)
    exact ⟨t1 ++ t2, by
      rw [List.foldl_cons, ht2, ht1, List.append_assoc]⟩

theorem scrapeStep_wf (st : ScrapeState) (of : Option ShipmentFragment)
    (h : ScrapeStateWF st) : ScrapeStateWF (scrapeStep st of) := by
  rcases scrapeStep_characterization st of with heq | ⟨f, i, _, hfi, hlk, heq⟩ |
    ⟨f, i, j, _, hfi, hlk, hpf, hpt, heq⟩
  · rw [heq]; exact h
  · rw [heq]
    intro p hp
    obtain ⟨hilt, _⟩ := findIdxL_spec _ _ _ hfi
    simp only [List.mem_append, List.mem_singleton] at hp
    rcases hp with hp | hp
    · obtain ⟨hplt, hptitle⟩ := h p hp
      refine ⟨by simpa [List.length_set] using hplt, ?_⟩
      show ((st.items.set i _).getD p.2 default).title = p.1
      rw [getD_set]
      by_cases hpi : p.2 = i ∧ i < st.items.length
      · rw [if_pos hpi]
        show (st.items.getD i default).title = p.1
        rw [← hpi.1]
        exact hptitle
      · rw [if_neg hpi]
        exact hptitle
    · subst hp
      refine ⟨by simpa [List.length_set] using hilt, ?_⟩
      show ((st.items.set i _).getD i default).title = _
      rw [getD_set, if_pos ⟨rfl, hilt⟩]
  · rw [heq]
    intro p hp
    obtain ⟨hplt, hptitle⟩ := h p hp
    refine ⟨by simpa [List.length_set] using hplt, ?_⟩
    show ((st.items.set j _).getD p.2 default).title = p.1
    rw [getD_set]
    by_cases hpj : p.2 = j ∧ j < st.items.length
    · rw [if_pos hpj]
      show (st.items.getD j default).title = p.1
      rw [← hpj.1]
      exact hptitle
    · rw [if_neg hpj]
      exact hptitle

theorem scrapeStep_preserves_priced (st : ScrapeState)
    (of : Option ShipmentFragment) (hwf : ScrapeStateWF st) (k : String)
    (j : Nat) (hmem : (k, j) ∈ st.assoc)
    (hpriced : truthyOptStr ((st.items.getD j default).price) = true) :
    (k, j) ∈ (scrapeStep st of).assoc ∧
    (scrapeStep st of).items.getD j default = st.items.getD j default := by
  rcases scrapeStep_characterization st of with heq | ⟨f, i, _, hfi, hlk, heq⟩ |
    ⟨f, i, j', _, hfi, hlk, hpf, hpt, heq⟩
  · rw [heq]; exact ⟨hmem, rfl⟩
  · rw [heq]
    refine ⟨by simp [hmem], ?_⟩
    have hij : i ≠ j := by
      intro he
      subst he
      obtain ⟨w, hw⟩ := mem_lookup_isSome st.assoc k i hmem
      rw [(hwf (k, i) hmem).2] at hlk
      rw [hlk] at hw
      simp at hw
    show (st.items.set i _).getD j default = _
    rw [getD_set, if_neg (by intro hand; exact hij hand.1.symm)]
  · rw [heq]
    refine ⟨hmem, ?_⟩
    have hjj : j' ≠ j := by
      intro he
      subst he
      rw [hpriced] at hpf
      simp at hpf
    show (st.items.set j' _).getD j default = _
    rw [getD_set, if_neg (by intro hand; exact hjj hand.1.symm)]

theorem foldl_wf : ∀ (frags : List (Option ShipmentFragment))
    (st : ScrapeState), ScrapeStateWF st →
    ScrapeStateWF (frags.foldl scrapeStep st)
  | [], _, h => h
  | of :: frags, st, h => by
    rw [List.foldl_cons]
    exact foldl_wf frags (scrapeStep st of) (scrapeStep_wf st of h)

theorem foldl_preserves_priced :
    ∀ (frags : List (Option ShipmentFragment)) (st : ScrapeState)
      (k : String) (j : Nat), ScrapeStateWF st → (k, j) ∈ st.assoc →
      truthyOptStr ((st.items.getD j default).price) = true →
      (k, j) ∈ (frags.foldl scrapeStep st).assoc ∧
      (frags.foldl scrapeStep st).items.getD j default =
        st.items.getD j default
  | [], st, k, j, _, hmem, _ => ⟨hmem, rfl⟩
  | of :: frags, st, k, j, hwf, hmem, hpriced => by
    obtain ⟨h1, h2⟩ := scrapeStep_preserves_priced st of hwf k j hmem hpriced
    obtain ⟨h3, h4⟩ := foldl_preserves_priced frags (scrapeStep st of) k j
      (scrapeStep_wf st of hwf) h1 (by rw [h2]; exact hpriced)
    rw [List.foldl_cons]
    exact ⟨h3, by rw [h4, h2]⟩

/-- C5: once the dedup map stores a record (key `k`, aliased item index
`j`) whose price is resolved (truthy), processing any further shipment
fragments leaves both the map entry and the aliased item — in particular
its price — completely unchanged: a later match can overwrite the price
only while the stored record still lacks one, and no merge step ever
changes a record from having a resolved price to lacking one. -/
theorem c5_dedup_price_monotonic (frags1 frags2 : List (Option ShipmentFragment))
    (items0 : List ItemDetails) (k : String) (j : Nat)
    (h1 : (k, j) ∈ (runScrape frags1 items0).assoc)
    (h2 : truthyOptStr ((runScrape frags1 items0).items.getD j default).price
      = true) :
    (k, j) ∈ (runScrape (frags1 ++ frags2) items0).assoc ∧
    (runScrape (frags1 ++ frags2) items0).items.getD j default =
      (runScrape frags1 items0).items.getD j default := by
  have hwf0 : ScrapeStateWF ⟨items0, []⟩ := by
    intro p hp
    simp at hp
  have hwf := foldl_wf frags1 ⟨items0, []⟩ hwf0
  have key := foldl_preserves_priced frags2 (runScrape frags1 items0) k j
    hwf h1 h2
  unfold runScrape
  rw [List.foldl_append]
  exact key

/-- C5 witness: after a fragment resolves the price `"22,99"` for the
item keyed `"Blue Widget Deluxe"`, a second matching fragment carrying
the price `"11,11"` leaves the stored record unchanged. -/
theorem c5_dedup_price_monotonic_witness :
    (("Blue Widget Deluxe", 0) ∈
        (runScrape [some pricedFragment] [titleOnlyItem]).assoc ∧
      truthyOptStr (((runScrape [some pricedFragment]
        [titleOnlyItem]).items.getD 0 default).price) = true) ∧
    ("Blue Widget Deluxe", 0) ∈
      (runScrape ([some pricedFragment] ++ [some otherPricedFragment])
        [titleOnlyItem]).assoc ∧
    (runScrape ([some pricedFragment] ++ [some otherPricedFragment])
        [titleOnlyItem]).items.getD 0 default =
      (runScrape [some pricedFragment] [titleOnlyItem]).items.getD 0 default := by
  have p1 : ("Blue Widget Deluxe", 0) ∈
      (runScrape [some pricedFragment] [titleOnlyItem]).assoc := by decide
  have p2 : truthyOptStr (((runScrape [some pricedFragment]
      [titleOnlyItem]).items.getD 0 default).price) = true := by decide
  exact ⟨⟨p1, p2⟩, c5_dedup_price_monotonic [some pricedFragment]
    [some otherPricedFragment] [titleOnlyItem] "Blue Widget Deluxe" 0 p1 p2⟩

theorem scrapeStep_nil_fix (items : List ItemDetails)
    (of : Option ShipmentFragment)
    (h : (scrapeStep ⟨items, []⟩ of).assoc = []) :
    scrapeStep ⟨items, []⟩ of = ⟨items, []⟩ := by
  rcases scrapeStep_characterization ⟨items, []⟩ of with heq |
    ⟨f, i, _, _, _, heq⟩ | ⟨f, i, j, _, _, hlk, _, _, heq⟩
  · exact heq
  · rw [heq] at h
    simp at h
  · simp [List.lookup] at hlk

theorem foldl_nil_fix :
    ∀ (frags : List (Option ShipmentFragment)) (items : List ItemDetails),
      (frags.foldl scrapeStep ⟨items, []⟩).assoc = [] →
      frags.foldl scrapeStep ⟨items, []⟩ = ⟨items, []⟩
  | [], _, _ => rfl
  | of :: frags, items, h => by
    rw [List.foldl_cons] at h ⊢
    obtain ⟨t, ht⟩ := foldl_assoc_extends frags (scrapeStep ⟨items, []⟩ of)
    have h1 : (scrapeStep ⟨items, []⟩ of).assoc = [] :=
      (List.append_eq_nil.mp (by rw [← ht]; exact h)).1
    have h2 := scrapeStep_nil_fix items of h1
    rw [h2] at h ⊢
    exact foldl_nil_fix frags items h

/-- C6: if processing the shipment elements produces zero matched
records (empty dedup map), `processShipmentElements` returns the order's
original item list unchanged — the dedup loop cannot have mutated any
item in that case — and in general a nonempty input item list is never
reduced to an empty output. -/
theorem c6_zero_records_fallback (frags : List (Option ShipmentFragment))
    (items0 : List ItemDetails) :
    ((runScrape frags items0).assoc = [] →
      processShipmentElements frags items0 = items0) ∧
    (items0 ≠ [] → processShipmentElements frags items0 ≠ []) := by
  constructor
  · intro h
    unfold processShipmentElements
    rw [show runScrape frags items0 = (⟨items0, []⟩ : ScrapeState) from
      foldl_nil_fix frags items0 h]
    simp
  · intro hne
    simp only [processShipmentElements]
    rcases hassoc : (runScrape frags items0).assoc with _ | ⟨p, rest⟩
    · rw [show runScrape frags items0 = (⟨items0, []⟩ : ScrapeState) from
        foldl_nil_fix frags items0 hassoc]
      simpa using hne
    · simp

/-- C6 witness: a fragment matching nothing leaves the single-item order
list unchanged and nonempty. -/
theorem c6_zero_records_fallback_witness :
    ((runScrape [some unmatchedFragment] [titleOnlyItem]).assoc = [] ∧
      [titleOnlyItem] ≠ ([] : List ItemDetails)) ∧
    processShipmentElements [some unmatchedFragment] [titleOnlyItem] =
      [titleOnlyItem] ∧
    processShipmentElements [some unmatchedFragment] [titleOnlyItem] ≠ [] := by
  have p1 : (runScrape [some unmatchedFragment] [titleOnlyItem]).assoc = [] := by
    decide
  have p2 : [titleOnlyItem] ≠ ([] : List ItemDetails) := by decide
  exact ⟨⟨p1, p2⟩,
    (c6_zero_records_fallback [some unmatchedFragment] [titleOnlyItem]).1 p1,
    (c6_zero_records_fallback [some unmatchedFragment] [titleOnlyItem]).2 p2⟩

theorem enrichOrder_frame (env : String → ScrapeOutcome) (template : String)
    (o : OrderDetails) :
    (enrichOrder env template o).orderId = o.orderId ∧
    (enrichOrder env template o).orderTotal = o.orderTotal ∧
    (enrichOrder env template o).deliveryStatus = o.deliveryStatus ∧
    (enrichOrder env template o).deliveryDate = o.deliveryDate ∧
    (enrichOrder env template o).orderPlacedDate = o.orderPlacedDate := by
  unfold enrichOrder
  cases henv : env o.orderId <;> simp [henv]

theorem scrapeGo_length (env : String → ScrapeOutcome) (template : String) :
    ∀ (orders : List OrderDetails) (seen : List String),
      (scrapeGo env template seen orders).length = orders.length
  | [], _ => rfl
  | o :: rest, seen => by
    rw [scrapeGo]
    by_cases h : o.orderId ∈ seen
    · rw [if_pos h]
      simp [scrapeGo_length env template rest seen]
    · rw [if_neg h]
      simp [scrapeGo_length env template rest (o.orderId :: seen)]

theorem dupBefore_cons_succ (o : OrderDetails) (rest : List OrderDetails)
    (i : Nat) :
    dupBefore (o :: rest) (i + 1) ↔
      (o.orderId = (rest.getD i default).orderId ∨ dupBefore rest i) := by
  constructor
  · rintro ⟨j, hj, hje⟩
    cases j with
    | zero =>
      left
      simpa using hje
    | succ j' =>
      right
      exact ⟨j', by omega, by simpa using hje⟩
  · rintro (h | ⟨j', hj', hje⟩)
    · exact ⟨0, by omega, by simpa using h⟩
    · exact ⟨j' + 1, by omega, by simpa using hje⟩

theorem scrapeGo_spec (env : String → ScrapeOutcome) (template : String) :
    ∀ (orders : List OrderDetails) (seen : List String) (i : Nat),
      i < orders.length →
      ((((orders.getD i default).orderId ∈ seen ∨ dupBefore orders i) →
        (scrapeGo env template seen orders).getD i default =
          orders.getD i default) ∧
       (¬ ((orders.getD i default).orderId ∈ seen ∨ dupBefore orders i) →
        (scrapeGo env template seen orders).getD i default =
          enrichOrder env template (orders.getD i default)))
  | [], seen, i, hi => absurd hi (by simp)
  | o :: rest, seen, 0, _ => by
    rw [scrapeGo]
    by_cases hmem : o.orderId ∈ seen
    · rw [if_pos hmem]
      exact ⟨fun _ => by simp, fun hn => absurd (Or.inl (by simpa using hmem))
        (by simpa using hn)⟩
    · rw [if_neg hmem]
      constructor
      · intro hcond
        rcases hcond with hl | ⟨j, hj, _⟩
        · exact absurd (by simpa using hl) hmem
        · omega
      · intro _
        simp
  | o :: rest, seen, i + 1, hi => by
    have hlen : i < rest.length := by simpa using hi
    rw [scrapeGo]
    by_cases hmem : o.orderId ∈ seen
    · rw [if_pos hmem]
      have ih := scrapeGo_spec env template rest seen i hlen
      have hiff : (((o :: rest).getD (i + 1) default).orderId ∈ seen ∨
          dupBefore (o :: rest) (i + 1)) ↔
          ((rest.getD i default).orderId ∈ seen ∨ dupBefore rest i) := by
        rw [dupBefore_cons_succ]
        constructor
        · rintro (h | h | h)
          · left; simpa using h
          · left; rw [← h]; exact hmem
          · right; exact h
        · rintro (h | h)
          · left; simpa using h
          · right; right; exact h
      constructor
      · intro hcond
        simp only [List.getD_cons_succ]
        exact ih.1 (hiff.mp hcond)
      · intro hcond
        simp only [List.getD_cons_succ]
        exact ih.2 (fun hc => hcond (hiff.mpr hc))
    · rw [if_neg hmem]
      have ih := scrapeGo_spec env template rest (o.orderId :: seen) i hlen
      have hiff : (((o :: rest).getD (i + 1) default).orderId ∈ seen ∨
          dupBefore (o :: rest) (i + 1)) ↔
          ((rest.getD i default).orderId ∈ o.orderId :: seen ∨
            dupBefore rest i) := by
        rw [dupBefore_cons_succ]
        constructor
        · rintro (h | h | h)
          · left
            simp only [List.getD_cons_succ] at h
            exact List.mem_cons_of_mem _ h
          · left
            exact h ▸ List.mem_cons_self _ _
          · right; exact h
        · rintro (h | h)
          · rcases List.mem_cons.mp h with he | hs
            · right; left; exact he.symm
            · left; simpa using hs
          · right; right; exact h
      constructor
      · intro hcond
        simp only [List.getD_cons_succ]
        exact ih.1 (hiff.mp hcond)
      · intro hcond
        simp only [List.getD_cons_succ]
        exact ih.2 (fun hc => hcond (hiff.mpr hc))

/-- C10: `ScrapePricesStrategy.process` returns an array of the same
length with every order in its original position; an order whose
`orderId` already occurred earlier in the list is skipped and returned
with none of its fields modified; and every order — enriched or skipped —
keeps its `orderId`, `orderTotal`, `deliveryStatus`, `deliveryDate` and
`orderPlacedDate` unchanged, so only `items` and `url` can be updated. -/
theorem c10_scrape_process_frame (env : String → ScrapeOutcome)
    (template : String) (orders : List OrderDetails) :
    (scrapeProcess env template orders).length = orders.length ∧
    ∀ i, i < orders.length →
      ((((scrapeProcess env template orders).getD i default).orderId =
          (orders.getD i default).orderId ∧
        ((scrapeProcess env template orders).getD i default).orderTotal =
          (orders.getD i default).orderTotal ∧
        ((scrapeProcess env template orders).getD i default).deliveryStatus =
          (orders.getD i default).deliveryStatus ∧
        ((scrapeProcess env template orders).getD i default).deliveryDate =
          (orders.getD i default).deliveryDate ∧
        ((scrapeProcess env template orders).getD i default).orderPlacedDate =
          (orders.getD i default).orderPlacedDate) ∧
       (dupBefore orders i →
        (scrapeProcess env template orders).getD i default =
          orders.getD i default)) := by
  refine ⟨scrapeGo_length env template orders [], ?_⟩
  intro i hi
  have spec := scrapeGo_spec env template orders [] i hi
  by_cases hdup : dupBefore orders i
  · have heq := spec.1 (Or.inr hdup)
    rw [show scrapeProcess env template orders =
      scrapeGo env template [] orders from rfl, heq]
    exact ⟨⟨rfl, rfl, rfl, rfl, rfl⟩, fun _ => rfl⟩
  · have heq := spec.2 (by
      rintro (h | h)
      · simp at h
      · exact hdup h)
    rw [show scrapeProcess env template orders =
      scrapeGo env template [] orders from rfl, heq]
    exact ⟨enrichOrder_frame env template (orders.getD i default),
      fun h => absurd h hdup⟩

/-- C10 witness: a list with a duplicated order id — the second
occurrence comes back identical, and all frame fields are unchanged at
both positions. -/
theorem c10_scrape_process_frame_witness :
    (1 < [qtyTwoOrder, qtyTwoOrder].length ∧
      dupBefore [qtyTwoOrder, qtyTwoOrder] 1) ∧
    (scrapeProcess constScrapeEnv "https://x/%%ORDER_NUMBER%%"
      [qtyTwoOrder, qtyTwoOrder]).length = 2 ∧
    (scrapeProcess constScrapeEnv "https://x/%%ORDER_NUMBER%%"
      [qtyTwoOrder, qtyTwoOrder]).getD 1 default =
      [qtyTwoOrder, qtyTwoOrder].getD 1 default := by
  have p1 : 1 < [qtyTwoOrder, qtyTwoOrder].length := by decide
  have p2 : dupBefore [qtyTwoOrder, qtyTwoOrder] 1 := ⟨0, by omega, rfl⟩
  have h := c10_scrape_process_frame constScrapeEnv
    "https://x/%%ORDER_NUMBER%%" [qtyTwoOrder, qtyTwoOrder]
  exact ⟨⟨p1, p2⟩, h.1, (h.2 1 p1).2 p2⟩

end AmazonExport
